import Mathlib

/-!
Verification development for the dental-clinic billing and appointment
program (src/Dental_Clinic.py and src/dental_billing.py).

Money amounts are modelled as exact rationals (the Python code uses ints
for catalog prices and floats only through `round(..., 2)`, whose
round-half-to-even behaviour at two decimals is modelled exactly by
`halfEven`/`pyRound2` below).  Strings are Lean `String`s; the Python
string helpers actually used by the code (`strip`, `lower`, `split`) are
re-implemented on the character list so that every definition is fully
executable.
-/

/-- Python `str.strip()` whitespace test (space, tab, LF, CR, VT, FF). -/
def pyIsSpace (c : Char) : Bool :=
  c.toNat = 32 || c.toNat = 9 || c.toNat = 10 || c.toNat = 13 || c.toNat = 11 || c.toNat = 12

/-- Strip leading and trailing Python whitespace, as `str.strip()`. -/
def pyStrip (s : String) : String :=
  String.mk (((s.data.dropWhile pyIsSpace).reverse.dropWhile pyIsSpace).reverse)

/-- Python `str.lower()` restricted to ASCII letters (the only characters the
program feeds it). -/
def pyToLower (c : Char) : Char :=
  if 65 ≤ c.toNat ∧ c.toNat ≤ 90 then Char.ofNat (c.toNat + 32) else c

/-- Lower-case a whole string, as `str.lower()`. -/
def pyLower (s : String) : String :=
  String.mk (s.data.map pyToLower)

/-- Split a character list at every occurrence of `sep`, as Python
`str.split(sep)`. -/
def splitOnCharAux (sep : Char) (acc : List Char) : List Char → List (List Char)
  | [] => [acc.reverse]
  | c :: rest =>
    if c = sep then acc.reverse :: splitOnCharAux sep [] rest
    else splitOnCharAux sep (c :: acc) rest

/-- Split a character list at every occurrence of `sep`. -/
def splitOnChar (sep : Char) (cs : List Char) : List (List Char) :=
  splitOnCharAux sep [] cs

/-- Split at the first occurrence of `sep` only, as Python
`str.split(sep, 1)`; `none` when `sep` does not occur. -/
def splitOnceChar (sep : Char) : List Char → Option (List Char × List Char)
  | [] => none
  | c :: rest =>
    if c = sep then some ([], rest)
    else (splitOnceChar sep rest).map (fun p => (c :: p.1, p.2))

/-- Numeric value of a digit string (most significant first). -/
def digitsToNat (l : List Char) : ℕ :=
  l.foldl (fun a c => a * 10 + (c.toNat - 48)) 0

/-- Python `float(s)` on the decimal forms the program actually produces:
optional sign, digits with at most one decimal point (exponents, `inf`,
`nan` and digit underscores are not produced by this program and are not
modelled).  `float()` ignores surrounding whitespace, hence the strip. -/
def parseFloatBody (sgn : ℚ) (body : List Char) : Option ℚ :=
  match splitOnChar '.' body with
  | [ipart] =>
    if ipart ≠ [] ∧ ipart.all Char.isDigit then
      some (sgn * (digitsToNat ipart : ℚ))
    else none
  | [ipart, fpart] =>
    if (ipart ≠ [] ∨ fpart ≠ []) ∧ ipart.all Char.isDigit ∧ fpart.all Char.isDigit then
      some (sgn * ((digitsToNat ipart : ℚ) + (digitsToNat fpart : ℚ) / (10 : ℚ) ^ fpart.length))
    else none
  | _ => none

/-- Python `float(s)` (see `parseFloatBody`). -/
def parseFloat (s : String) : Option ℚ :=
  match (pyStrip s).data with
  | '-' :: t => parseFloatBody (-1) t
  | '+' :: t => parseFloatBody 1 t
  | t => parseFloatBody 1 t

/-- Round-half-to-even to an integer, exactly as Python `round` resolves
ties (CPython rounds a float half-to-even). -/
def halfEven (x : ℚ) : ℤ :=
  if x - ⌊x⌋ < 1 / 2 then ⌊x⌋
  else if 1 / 2 < x - ⌊x⌋ then ⌊x⌋ + 1
  else if ⌊x⌋ % 2 = 0 then ⌊x⌋ else ⌊x⌋ + 1

/-- Python `round(x, 2)`: round half-to-even at two decimal places. -/
def pyRound2 (x : ℚ) : ℚ :=
  (halfEven (x * 100) : ℚ) / 100

/-- `Patient.calculate_total` (src/Dental_Clinic.py:62 and
src/dental_billing.py:71): `sum(cost for _, cost in self._treatments)`,
a left fold starting at 0 over the ordered selection list. -/
def Patient.calculate_total (ts : List (String × ℚ)) : ℚ :=
  ts.foldl (fun a t => a + t.2) 0

/-- `VIPPatient.calculate_total` (src/Dental_Clinic.py:149 and
src/dental_billing.py:132): the standard total, multiplied by
`1 - discount/100`, rounded to two decimals. -/
def VIPPatient.calculate_total (discount : ℚ) (ts : List (String × ℚ)) : ℚ :=
  pyRound2 (Patient.calculate_total ts * (1 - discount / 100))

/-- Modelled from the spec: the required VIP total
`round(T * (1 - d/100), 2)` stated in section 8 of spec.md, for
comparison with `VIPPatient.calculate_total`. -/
def specVipTotal (T d : ℚ) : ℚ :=
  pyRound2 (T * (1 - d / 100))

theorem foldl_add_eq_sum (ts : List (String × ℚ)) (a : ℚ) :
    ts.foldl (fun a t => a + t.2) a = a + (ts.map Prod.snd).sum := by
  induction ts generalizing a with
  | nil => simp
  | cons h t ih => simp [ih, add_assoc]

theorem calculate_total_eq_sum (ts : List (String × ℚ)) :
    Patient.calculate_total ts = (ts.map Prod.snd).sum := by
  simpa using foldl_add_eq_sum ts 0

theorem halfEven_bounds (x : ℚ) : ⌊x⌋ ≤ halfEven x ∧ halfEven x ≤ ⌊x⌋ + 1 := by
  unfold halfEven
  split_ifs <;> omega

theorem halfEven_mono {x y : ℚ} (h : x ≤ y) : halfEven x ≤ halfEven y := by
  have hf : ⌊x⌋ ≤ ⌊y⌋ := Int.floor_le_floor h
  rcases eq_or_lt_of_le hf with heq | hlt
  · unfold halfEven
    rw [← heq]
    have hxy : x - (⌊x⌋ : ℚ) ≤ y - (⌊x⌋ : ℚ) := by linarith
    split_ifs <;> first | omega | linarith
  · have b1 := (halfEven_bounds x).2
    have b2 := (halfEven_bounds y).1
    omega

theorem pyRound2_mono {x y : ℚ} (h : x ≤ y) : pyRound2 x ≤ pyRound2 y := by
  unfold pyRound2
  have h100 : x * 100 ≤ y * 100 := by nlinarith
  have := halfEven_mono h100
  have hc : (halfEven (x * 100) : ℚ) ≤ (halfEven (y * 100) : ℚ) := by exact_mod_cast this
  linarith

/-- Claim C2: for every Standard patient and every ordered selection list of
(name, price) pairs with non-negative prices, `calculate_total` returns
exactly the sum of the selection prices, with no rounding applied. -/
theorem standard_total_is_exact_sum (ts : List (String × ℚ))
    (hnn : ∀ t ∈ ts, 0 ≤ t.2) :
    Patient.calculate_total ts = (ts.map Prod.snd).sum :=
  calculate_total_eq_sum ts

theorem standard_total_is_exact_sum_witness :
    Patient.calculate_total [("Cleaning", (7000 : ℚ)), ("Filling", 5000)] =
      (([("Cleaning", (7000 : ℚ)), ("Filling", 5000)]).map Prod.snd).sum :=
  standard_total_is_exact_sum _ (by decide)

/-- Claim C1: for every VIP patient with discount d in [0,100] and any
selection list with non-negative prices summing to T,
`VIPPatient.calculate_total` returns `round(T * (1 - d/100), 2)`, and for a
fixed selection list the result is monotonically non-increasing in d. -/
theorem vip_total_spec_and_antitone (ts : List (String × ℚ)) (d e : ℚ)
    (hd0 : 0 ≤ d) (hd1 : d ≤ 100) (hnn : ∀ t ∈ ts, 0 ≤ t.2) :
    VIPPatient.calculate_total d ts = specVipTotal ((ts.map Prod.snd).sum) d ∧
      (d ≤ e → e ≤ 100 →
        VIPPatient.calculate_total e ts ≤ VIPPatient.calculate_total d ts) := by
  constructor
  · unfold VIPPatient.calculate_total specVipTotal
    rw [calculate_total_eq_sum]
  · intro hde he
    unfold VIPPatient.calculate_total
    apply pyRound2_mono
    have hT : 0 ≤ Patient.calculate_total ts := by
      rw [calculate_total_eq_sum]
      apply List.sum_nonneg
      intro q hq
      rcases List.mem_map.mp hq with ⟨t, ht, rfl⟩
      exact hnn t ht
    have hfac : 1 - e / 100 ≤ 1 - d / 100 := by linarith
    nlinarith

theorem vip_total_spec_and_antitone_witness :
    VIPPatient.calculate_total 10 [("Cleaning", (7000 : ℚ))] =
        specVipTotal ((([("Cleaning", (7000 : ℚ))]).map Prod.snd).sum) 10 ∧
      VIPPatient.calculate_total 20 [("Cleaning", (7000 : ℚ))] ≤
        VIPPatient.calculate_total 10 [("Cleaning", (7000 : ℚ))] := by
  have h := vip_total_spec_and_antitone [("Cleaning", (7000 : ℚ))] 10 20
    (by norm_num) (by norm_num) (by decide)
  exact ⟨h.1, h.2 (by norm_num) (by norm_num)⟩

/-- The treatment catalog: the Python dict `id -> (name, price)` in insertion
order, as an association list. -/
abbrev Catalog := List (ℕ × String × ℚ)

/-- `old_treatments = {v[0]: v[1] for v in treatments.values()}` followed by
`old_treatments.get(name, 1000)` (src/Dental_Clinic.py:488,493): the price of
the last catalog entry carrying `name`, defaulting to 1000. -/
def lookupOldPrice (cat : Catalog) (name : String) : ℚ :=
  (cat.foldl (fun acc e => if e.2.1 = name then some e.2.2 else acc) none).getD 1000

/-- The `for i, name in enumerate(lines, 1)` loop of `save_treatments`
(src/Dental_Clinic.py:489 and src/dental_billing.py:393): strip each line,
silently skip empty names, keep the enumeration index as the dict key. -/
def treatLoop (cat : Catalog) (i : ℕ) : List String → Catalog
  | [] => []
  | line :: rest =>
    let nm := pyStrip line
    if nm = "" then treatLoop cat (i + 1) rest
    else (i, nm, lookupOldPrice cat nm) :: treatLoop cat (i + 1) rest

/-- `save_treatments` in src/Dental_Clinic.py:482 (whole-catalog treatment
name edit); an error leaves the caller's catalog untouched. -/
def saveTreatmentsDC (cat : Catalog) (lines : List String) : Except String Catalog :=
  if lines = [] ∨ lines.all (fun l => pyStrip l = "") then
    .error "At least one treatment is required."
  else
    let nt := treatLoop cat 1 lines
    if nt = [] then .error "At least one valid treatment is required."
    else .ok nt

/-- `save_treatments` in src/dental_billing.py:386 (identical loop, but the
initial guard only checks for an empty line list). -/
def saveTreatmentsDB (cat : Catalog) (lines : List String) : Except String Catalog :=
  if lines = [] then .error "At least one treatment is required."
  else
    let nt := treatLoop cat 1 lines
    if nt = [] then .error "At least one valid treatment is required."
    else .ok nt

/-- The `for i, line in enumerate(lines, 1)` loop of `save_prices` in
src/Dental_Clinic.py:527: blank lines, colon-less lines and empty-name lines
are silently skipped (`continue`); only an unparsable or negative price
aborts with a line-numbered message. -/
def priceLoopDC (i : ℕ) : List String → Except String Catalog
  | [] => .ok []
  | line :: rest =>
    match splitOnceChar ':' (pyStrip line).data with
    | none => priceLoopDC (i + 1) rest
    | some (n, p) =>
      let nm := pyStrip (String.mk n)
      let ps := pyStrip (String.mk p)
      if nm = "" then priceLoopDC (i + 1) rest
      else
        match parseFloat ps with
        | none => .error ("Line " ++ toString i ++ ": Invalid price " ++ ps ++ ".")
        | some price =>
          if price < 0 then .error ("Line " ++ toString i ++ ": Price cannot be negative.")
          else (priceLoopDC (i + 1) rest).map (fun tl => (i, nm, price) :: tl)

/-- `save_prices` in src/Dental_Clinic.py:524: run the loop, reject an empty
result, otherwise replace the catalog wholesale. -/
def savePricesDC (lines : List String) : Except String Catalog :=
  match priceLoopDC 1 lines with
  | .error e => .error e
  | .ok nt =>
    if nt = [] then .error "At least one valid treatment:price is required."
    else .ok nt

/-- The `for i, line in enumerate(lines, 1)` loop of `save_prices` in
src/dental_billing.py:426: every line must carry a colon, a non-empty name
and a parsable non-negative price; any failure aborts with a line-numbered
message. -/
def priceLoopDB (i : ℕ) : List String → Except String Catalog
  | [] => .ok []
  | line :: rest =>
    match splitOnceChar ':' line.data with
    | none => .error ("Line " ++ toString i ++ " is invalid. Use Treatment: price format.")
    | some (n, p) =>
      let nm := pyStrip (String.mk n)
      let ps := pyStrip (String.mk p)
      if nm = "" then .error ("Line " ++ toString i ++ " has empty treatment name.")
      else
        match parseFloat ps with
        | none => .error ("Line " ++ toString i ++ " has invalid price.")
        | some price =>
          if price < 0 then .error ("Line " ++ toString i ++ " has negative price.")
          else (priceLoopDB (i + 1) rest).map (fun tl => (i, nm, price) :: tl)

/-- `save_prices` in src/dental_billing.py:423. -/
def savePricesDB (lines : List String) : Except String Catalog :=
  match priceLoopDB 1 lines with
  | .error e => .error e
  | .ok nt =>
    if nt = [] then .error "At least one valid treatment is required."
    else .ok nt

/-- Running `save_prices` (Dental_Clinic variant) against the current
catalog: on success the catalog is replaced (`self.clinic._treatments =
new_treatments`), on error the previous catalog is kept. -/
def applySavePricesDC (cat : Catalog) (lines : List String) : Catalog × Option String :=
  match savePricesDC lines with
  | .ok nt => (nt, none)
  | .error e => (cat, some e)

/-- Running `save_prices` (dental_billing variant) against the current
catalog. -/
def applySavePricesDB (cat : Catalog) (lines : List String) : Catalog × Option String :=
  match savePricesDB lines with
  | .ok nt => (nt, none)
  | .error e => (cat, some e)

/-- A line the dental_billing `save_prices` rejects: no colon, empty name,
unparsable price, or negative price. -/
def dbLineBad (line : String) : Bool :=
  match splitOnceChar ':' line.data with
  | none => true
  | some (n, p) =>
    if pyStrip (String.mk n) = "" then true
    else
      match parseFloat (pyStrip (String.mk p)) with
      | none => true
      | some q => decide (q < 0)

/-- A line the Dental_Clinic `save_prices` rejects (colon-less and
empty-name lines are skipped there, not rejected): a line with a colon and a
non-empty name whose price is unparsable or negative. -/
def dcLineBad (line : String) : Bool :=
  match splitOnceChar ':' (pyStrip line).data with
  | none => false
  | some (n, p) =>
    if pyStrip (String.mk n) = "" then false
    else
      match parseFloat (pyStrip (String.mk p)) with
      | none => true
      | some q => decide (q < 0)

/-- `pre` is a literal prefix of `msg`. -/
def msgStartsWith (pre msg : String) : Bool :=
  pre.data.isPrefixOf msg.data

theorem msgStartsWith_append (p suf : String) : msgStartsWith p (p ++ suf) = true := by
  cases p with
  | mk pd =>
    cases suf with
    | mk sd =>
      show List.isPrefixOf pd (pd ++ sd) = true
      exact List.isPrefixOf_iff_prefix.mpr (List.prefix_append pd sd)

theorem msgStartsWith_trans (p q r : String) (h : msgStartsWith p q = true) :
    msgStartsWith p (q ++ r) = true := by
  cases p with
  | mk pd =>
    cases q with
    | mk qd =>
      cases r with
      | mk rd =>
        have h1 : pd <+: qd := List.isPrefixOf_iff_prefix.mp h
        exact List.isPrefixOf_iff_prefix.mpr (h1.trans (List.prefix_append qd rd))

theorem priceLoopDB_first_bad (lines : List String) (i : ℕ)
    (h : lines.any dbLineBad = true) :
    ∃ msg, priceLoopDB i lines = .error msg ∧
      msgStartsWith ("Line " ++ toString (i + lines.findIdx dbLineBad)) msg = true := by
  induction lines generalizing i with
  | nil => simp at h
  | cons l rest ih =>
    by_cases hb : dbLineBad l = true
    · rw [List.findIdx_cons, hb]
      simp only [cond_true, Nat.add_zero]
      unfold dbLineBad at hb
      unfold priceLoopDB
      cases hsp : splitOnceChar ':' l.data with
      | none =>
        exact ⟨_, rfl, msgStartsWith_append _ _⟩
      | some np =>
        obtain ⟨n, p⟩ := np
        rw [hsp] at hb
        dsimp only at hb ⊢
        by_cases hn : pyStrip (String.mk n) = ""
        · rw [if_pos hn]
          exact ⟨_, rfl, msgStartsWith_append _ _⟩
        · rw [if_neg hn]
          rw [if_neg hn] at hb
          cases hpf : parseFloat (pyStrip (String.mk p)) with
          | none =>
            exact ⟨_, rfl, msgStartsWith_append _ _⟩
          | some q =>
            rw [hpf] at hb
            simp only [decide_eq_true_eq] at hb
            dsimp only
            rw [if_pos hb]
            exact ⟨_, rfl, msgStartsWith_append _ _⟩
    · have hb' : dbLineBad l = false := by simpa using hb
      rw [List.findIdx_cons, hb']
      simp only [cond_false]
      have hrest : rest.any dbLineBad = true := by
        rcases List.any_eq_true.mp h with ⟨x, hx, hxb⟩
        rcases List.mem_cons.mp hx with rfl | hx'
        · exact absurd hxb hb
        · exact List.any_eq_true.mpr ⟨x, hx', hxb⟩
      obtain ⟨msg, hrec, hpre⟩ := ih (i + 1) hrest
      unfold dbLineBad at hb'
      unfold priceLoopDB
      cases hsp : splitOnceChar ':' l.data with
      | none => rw [hsp] at hb'; simp at hb'
      | some np =>
        obtain ⟨n, p⟩ := np
        rw [hsp] at hb'
        dsimp only at hb' ⊢
        by_cases hn : pyStrip (String.mk n) = ""
        · rw [if_pos hn] at hb'; simp at hb'
        · rw [if_neg hn] at hb'
          rw [if_neg hn]
          cases hpf : parseFloat (pyStrip (String.mk p)) with
          | none => rw [hpf] at hb'; simp at hb'
          | some q =>
            rw [hpf] at hb'
            dsimp only
            simp only [decide_eq_false_iff_not] at hb'
            rw [if_neg hb']
            rw [hrec]
            refine ⟨msg, rfl, ?_⟩
            rw [show i + (List.findIdx dbLineBad rest + 1) = i + 1 + List.findIdx dbLineBad rest by omega]
            exact hpre

theorem priceLoopDC_first_bad (lines : List String) (i : ℕ)
    (h : lines.any dcLineBad = true) :
    ∃ msg, priceLoopDC i lines = .error msg ∧
      msgStartsWith ("Line " ++ toString (i + lines.findIdx dcLineBad)) msg = true := by
  induction lines generalizing i with
  | nil => simp at h
  | cons l rest ih =>
    by_cases hb : dcLineBad l = true
    · rw [List.findIdx_cons, hb]
      simp only [cond_true, Nat.add_zero]
      unfold dcLineBad at hb
      unfold priceLoopDC
      cases hsp : splitOnceChar ':' (pyStrip l).data with
      | none => rw [hsp] at hb; simp at hb
      | some np =>
        obtain ⟨n, p⟩ := np
        rw [hsp] at hb
        dsimp only at hb ⊢
        by_cases hn : pyStrip (String.mk n) = ""
        · rw [if_pos hn] at hb; simp at hb
        · rw [if_neg hn] at hb
          rw [if_neg hn]
          cases hpf : parseFloat (pyStrip (String.mk p)) with
          | none =>
            refine ⟨_, rfl, ?_⟩
            apply msgStartsWith_trans
            apply msgStartsWith_trans
            exact msgStartsWith_append _ _
          | some q =>
            rw [hpf] at hb
            simp only [decide_eq_true_eq] at hb
            dsimp only
            rw [if_pos hb]
            exact ⟨_, rfl, msgStartsWith_append _ _⟩
    · have hb' : dcLineBad l = false := by simpa using hb
      rw [List.findIdx_cons, hb']
      simp only [cond_false]
      have hrest : rest.any dcLineBad = true := by
        rcases List.any_eq_true.mp h with ⟨x, hx, hxb⟩
        rcases List.mem_cons.mp hx with rfl | hx'
        · exact absurd hxb hb
        · exact List.any_eq_true.mpr ⟨x, hx', hxb⟩
      obtain ⟨msg, hrec, hpre⟩ := ih (i + 1) hrest
      have hgoal := msgStartsWith_append ("Line " ++ toString (i + 1 + List.findIdx dcLineBad rest)) ""
      unfold dcLineBad at hb'
      unfold priceLoopDC
      have hidx : i + (List.findIdx dcLineBad rest + 1) = i + 1 + List.findIdx dcLineBad rest := by
        omega
      cases hsp : splitOnceChar ':' (pyStrip l).data with
      | none =>
        obtain ⟨msg2, hrec2, hpre2⟩ := ih (i + 1) hrest
        rw [hidx]
        exact ⟨msg2, hrec2, hpre2⟩
      | some np =>
        obtain ⟨n, p⟩ := np
        rw [hsp] at hb'
        dsimp only at hb' ⊢
        by_cases hn : pyStrip (String.mk n) = ""
        · rw [if_pos hn]
          rw [hidx]
          exact ⟨msg, hrec, hpre⟩
        · rw [if_neg hn] at hb'
          rw [if_neg hn]
          cases hpf : parseFloat (pyStrip (String.mk p)) with
          | none => rw [hpf] at hb'; simp at hb'
          | some q =>
            rw [hpf] at hb'
            dsimp only
            simp only [decide_eq_false_iff_not] at hb'
            rw [if_neg hb']
            rw [hrec]
            refine ⟨msg, rfl, ?_⟩
            rw [hidx]
            exact hpre

/-- Claim C3 counterexample: in src/Dental_Clinic.py the price edit is given
the previous catalog [(1, X, 3)] and the two lines [a: 5, : 7].  Line 2 has
an empty treatment name, yet the edit reports no validation error and
replaces the catalog (dropping the empty-name line), contradicting the
claim that such an input reports an error naming the line and leaves the
catalog unchanged. -/
theorem save_prices_dc_accepts_empty_name_line :
    (splitOnceChar ':' (pyStrip ": 7").data).map (fun q => pyStrip (String.mk q.1)) =
        some "" ∧
      ∃ nt, applySavePricesDC [(1, "X", (3 : ℚ))] ["a: 5", ": 7"] = (nt, none) ∧
        nt ≠ [(1, "X", (3 : ℚ))] := by
  refine ⟨by decide, [(1, "a", (1 : ℚ) * ((5 : ℕ) : ℚ))], ?_, ?_⟩
  · show applySavePricesDC _ _ = _
    unfold applySavePricesDC savePricesDC
    have step : priceLoopDC 1 ["a: 5", ": 7"] =
        (if (1 : ℚ) * ((5 : ℕ) : ℚ) < 0 then
          Except.error ("Line " ++ toString 1 ++ ": Price cannot be negative.")
        else (priceLoopDC 2 [": 7"]).map
          (fun tl => (1, "a", (1 : ℚ) * ((5 : ℕ) : ℚ)) :: tl)) := rfl
    rw [step, if_neg (by norm_num)]
    rfl
  · simp

/-- Claim C3 (amended): line-numbered validation errors and atomicity hold as
claimed for src/dental_billing.py's save_prices (any colon-less, empty-name,
unparsable-price or negative-price line aborts the edit with a message naming
the first such line, keeping the previous catalog); for
src/Dental_Clinic.py's save_prices the same guarantee holds only for lines
with a colon and a non-empty name whose price is unparsable or negative —
blank, colon-less and empty-name lines are silently skipped there. -/
theorem save_prices_atomic_line_errors :
    (∀ (cat : Catalog) (lines : List String), lines.any dbLineBad = true →
      ∃ msg, applySavePricesDB cat lines = (cat, some msg) ∧
        msgStartsWith ("Line " ++ toString (1 + lines.findIdx dbLineBad)) msg = true) ∧
    (∀ (cat : Catalog) (lines : List String), lines.any dcLineBad = true →
      ∃ msg, applySavePricesDC cat lines = (cat, some msg) ∧
        msgStartsWith ("Line " ++ toString (1 + lines.findIdx dcLineBad)) msg = true) := by
  constructor
  · intro cat lines hany
    obtain ⟨msg, hloop, hpre⟩ := priceLoopDB_first_bad lines 1 hany
    refine ⟨msg, ?_, hpre⟩
    unfold applySavePricesDB savePricesDB
    rw [hloop]
  · intro cat lines hany
    obtain ⟨msg, hloop, hpre⟩ := priceLoopDC_first_bad lines 1 hany
    refine ⟨msg, ?_, hpre⟩
    unfold applySavePricesDC savePricesDC
    rw [hloop]

theorem save_prices_atomic_line_errors_witness :
    (∃ msg, applySavePricesDB [(1, "X", (3 : ℚ))] ["x: ", "a: 5"] =
        ([(1, "X", (3 : ℚ))], some msg) ∧
      msgStartsWith ("Line " ++ toString (1 + List.findIdx dbLineBad ["x: ", "a: 5"])) msg =
        true) ∧
    ∃ msg, applySavePricesDC [(1, "X", (3 : ℚ))] ["x: ", "a: 5"] =
        ([(1, "X", (3 : ℚ))], some msg) ∧
      msgStartsWith ("Line " ++ toString (1 + List.findIdx dcLineBad ["x: ", "a: 5"])) msg =
        true :=
  ⟨save_prices_atomic_line_errors.1 [(1, "X", (3 : ℚ))] ["x: ", "a: 5"] (by decide),
   save_prices_atomic_line_errors.2 [(1, "X", (3 : ℚ))] ["x: ", "a: 5"] (by decide)⟩

/-- A line `save_prices` (Dental_Clinic variant) keeps: a colon, a non-empty
name, and a parsable non-negative price. -/
def dcLineKept (line : String) : Bool :=
  match splitOnceChar ':' (pyStrip line).data with
  | none => false
  | some (n, p) =>
    if pyStrip (String.mk n) = "" then false
    else
      match parseFloat (pyStrip (String.mk p)) with
      | none => false
      | some q => decide (0 ≤ q)

theorem treatLoop_keys (cat : Catalog) (lines : List String) (i : ℕ)
    (h : ∀ l ∈ lines, pyStrip l ≠ "") :
    (treatLoop cat i lines).map Prod.fst = List.range' i lines.length := by
  induction lines generalizing i with
  | nil => simp [treatLoop]
  | cons l rest ih =>
    unfold treatLoop
    dsimp only
    rw [if_neg (h l (List.mem_cons_self l rest))]
    simp only [List.map_cons, List.length_cons]
    rw [List.range'_succ]
    rw [ih (i + 1) (fun x hx => h x (List.mem_cons_of_mem l hx))]

theorem priceLoopDC_keys (lines : List String) (i : ℕ)
    (h : ∀ l ∈ lines, dcLineKept l = true) :
    ∃ nt, priceLoopDC i lines = .ok nt ∧ nt.map Prod.fst = List.range' i lines.length := by
  induction lines generalizing i with
  | nil => exact ⟨[], rfl, by simp⟩
  | cons l rest ih =>
    have hl := h l (List.mem_cons_self l rest)
    obtain ⟨nt, hrec, hkeys⟩ := ih (i + 1) (fun x hx => h x (List.mem_cons_of_mem l hx))
    unfold dcLineKept at hl
    unfold priceLoopDC
    cases hsp : splitOnceChar ':' (pyStrip l).data with
    | none => rw [hsp] at hl; simp at hl
    | some np =>
      obtain ⟨n, p⟩ := np
      rw [hsp] at hl
      dsimp only at hl ⊢
      by_cases hn : pyStrip (String.mk n) = ""
      · rw [if_pos hn] at hl; simp at hl
      · rw [if_neg hn] at hl
        rw [if_neg hn]
        cases hpf : parseFloat (pyStrip (String.mk p)) with
        | none => rw [hpf] at hl; simp at hl
        | some q =>
          rw [hpf] at hl
          simp only [decide_eq_true_eq] at hl
          dsimp only
          rw [if_neg (not_lt.mpr hl)]
          rw [hrec]
          refine ⟨(i, pyStrip (String.mk n), q) :: nt, rfl, ?_⟩
          simp only [List.map_cons, List.length_cons]
          rw [List.range'_succ, hkeys]

/-- Claim C4 counterexample: the whole-catalog treatment edit
(src/Dental_Clinic.py save_treatments) on the three lines [a, blank, b]
succeeds with two resulting treatments, but the catalog keys are {1, 3},
not the dense range 1..2. -/
theorem save_treatments_leaves_key_gaps :
    saveTreatmentsDC [] ["a", "", "b"] =
        Except.ok [(1, "a", (1000 : ℚ)), (3, "b", 1000)] ∧
      List.map Prod.fst [(1, "a", (1000 : ℚ)), (3, "b", 1000)] ≠ List.range' 1 2 := by
  constructor
  · rfl
  · decide

/-- Claim C4 (amended): after a whole-catalog edit, the catalog keys are the
1-based positions of the accepted input lines, so they form the dense range
1..N exactly when no line is skipped: if every submitted line is non-blank
(for the treatment-name edit of either source file) or carries a colon, a
non-empty name and a valid non-negative price (for the Dental_Clinic price
edit), a successful edit with N lines yields key list 1..N.  A skipped line
leaves a gap instead (see the counterexample). -/
theorem save_edits_dense_ids_when_no_line_skipped :
    (∀ (cat : Catalog) (lines : List String), lines ≠ [] →
      (∀ l ∈ lines, pyStrip l ≠ "") →
      ∃ nt, saveTreatmentsDC cat lines = .ok nt ∧
        nt.map Prod.fst = List.range' 1 lines.length) ∧
    (∀ (cat : Catalog) (lines : List String), lines ≠ [] →
      (∀ l ∈ lines, pyStrip l ≠ "") →
      ∃ nt, saveTreatmentsDB cat lines = .ok nt ∧
        nt.map Prod.fst = List.range' 1 lines.length) ∧
    (∀ (lines : List String), lines ≠ [] →
      (∀ l ∈ lines, dcLineKept l = true) →
      ∃ nt, savePricesDC lines = .ok nt ∧
        nt.map Prod.fst = List.range' 1 lines.length) := by
  have hloop : ∀ (cat : Catalog) (lines : List String), lines ≠ [] →
      (∀ l ∈ lines, pyStrip l ≠ "") →
      treatLoop cat 1 lines ≠ [] ∧
        (treatLoop cat 1 lines).map Prod.fst = List.range' 1 lines.length := by
    intro cat lines hne hok
    have hk := treatLoop_keys cat lines 1 hok
    refine ⟨?_, hk⟩
    intro hnil
    rw [hnil] at hk
    have : lines.length = 0 := by
      by_contra hlen
      have := List.range'_eq_nil.mp hk.symm
      omega
    exact hne (List.eq_nil_of_length_eq_zero this)
  refine ⟨?_, ?_, ?_⟩
  · intro cat lines hne hok
    obtain ⟨hnil, hk⟩ := hloop cat lines hne hok
    refine ⟨treatLoop cat 1 lines, ?_, hk⟩
    unfold saveTreatmentsDC
    rw [if_neg, if_neg hnil]
    push_neg
    refine ⟨hne, ?_⟩
    intro hall
    rcases List.exists_mem_of_ne_nil lines hne with ⟨x, hx⟩
    exact hok x hx (by simpa using List.all_eq_true.mp hall x hx)
  · intro cat lines hne hok
    obtain ⟨hnil, hk⟩ := hloop cat lines hne hok
    refine ⟨treatLoop cat 1 lines, ?_, hk⟩
    unfold saveTreatmentsDB
    rw [if_neg hne, if_neg hnil]
  · intro lines hne hok
    obtain ⟨nt, hloop2, hk⟩ := priceLoopDC_keys lines 1 hok
    refine ⟨nt, ?_, hk⟩
    unfold savePricesDC
    rw [hloop2]
    dsimp only
    have hnil : nt ≠ [] := by
      intro hnil
      rw [hnil] at hk
      have : lines.length = 0 := by
        by_contra hlen
        have := List.range'_eq_nil.mp hk.symm
        omega
      exact hne (List.eq_nil_of_length_eq_zero this)
    rw [if_neg hnil]

theorem save_edits_dense_ids_witness :
    (∃ nt, saveTreatmentsDC [] ["a", "b"] = .ok nt ∧
        nt.map Prod.fst = List.range' 1 (["a", "b"] : List String).length) ∧
    (∃ nt, saveTreatmentsDB [] ["a", "b"] = .ok nt ∧
        nt.map Prod.fst = List.range' 1 (["a", "b"] : List String).length) ∧
    ∃ nt, savePricesDC ["a: 5"] = .ok nt ∧
      nt.map Prod.fst = List.range' 1 (["a: 5"] : List String).length := by
  have hkept : ∀ l ∈ (["a: 5"] : List String), dcLineKept l = true := by
    intro l hl
    rcases List.mem_singleton.mp hl with rfl
    have hstep : dcLineKept "a: 5" = decide ((0 : ℚ) ≤ 1 * ((5 : ℕ) : ℚ)) := rfl
    rw [hstep, decide_eq_true_eq]
    norm_num
  exact ⟨save_edits_dense_ids_when_no_line_skipped.1 [] ["a", "b"] (by decide) (by decide),
    save_edits_dense_ids_when_no_line_skipped.2.1 [] ["a", "b"] (by decide) (by decide),
    save_edits_dense_ids_when_no_line_skipped.2.2 ["a: 5"] (by decide) hkept⟩

/-- Gregorian leap-year test (as implemented by Python `datetime.date`). -/
def isLeap (y : ℕ) : Bool :=
  y % 4 = 0 && (y % 100 ≠ 0 || y % 400 = 0)

/-- Days in a month of the Gregorian calendar (as validated by
`datetime.date`); only queried with months 1..12. -/
def daysInMonth (y m : ℕ) : ℕ :=
  if m = 2 then (if isLeap y then 29 else 28)
  else if m = 4 ∨ m = 6 ∨ m = 9 ∨ m = 11 then 30
  else 31

/-- `datetime.datetime.strptime(s, "%Y-%m-%d").date()`
(src/Dental_Clinic.py:199,788): `%Y` is exactly four digits, `%m` and `%d`
are one or two digits, the whole string must be consumed, and the resulting
(year, month, day) must be a real calendar date (`datetime` raises
`ValueError` otherwise, modelled by `none`). -/
def parseDate (s : String) : Option (ℕ × ℕ × ℕ) :=
  match splitOnChar '-' s.data with
  | [ys, ms, ds] =>
    if ys.length = 4 ∧ ys.all Char.isDigit ∧
        1 ≤ ms.length ∧ ms.length ≤ 2 ∧ ms.all Char.isDigit ∧
        1 ≤ ds.length ∧ ds.length ≤ 2 ∧ ds.all Char.isDigit then
      let y := digitsToNat ys
      let m := digitsToNat ms
      let d := digitsToNat ds
      if 1 ≤ y ∧ 1 ≤ m ∧ m ≤ 12 ∧ 1 ≤ d ∧ d ≤ daysInMonth y m then some (y, m, d)
      else none
    else none
  | _ => none

/-- `datetime.datetime.strptime(s, "%H:%M")` (src/Dental_Clinic.py:797):
hour 0..23 and minute 0..59, each written with one or two digits. -/
def parseTime (s : String) : Option (ℕ × ℕ) :=
  match splitOnChar ':' s.data with
  | [hs, ms] =>
    if 1 ≤ hs.length ∧ hs.length ≤ 2 ∧ hs.all Char.isDigit ∧
        1 ≤ ms.length ∧ ms.length ≤ 2 ∧ ms.all Char.isDigit then
      let h := digitsToNat hs
      let m := digitsToNat ms
      if h ≤ 23 ∧ m ≤ 59 then some (h, m) else none
    else none
  | _ => none

/-- Order-preserving encoding of a calendar date; Python compares
`datetime.date` values lexicographically by (year, month, day), which for
valid dates (month < 100, day < 100) coincides with this numeric order. -/
def encodeDate (d : ℕ × ℕ × ℕ) : ℕ :=
  d.1 * 10000 + d.2.1 * 100 + d.2.2

/-- The `Appointment` record (src/Dental_Clinic.py:175): date and time slot
are kept as the strings entered at booking. -/
structure Appt where
  patient_name : String
  phone : String
  date : String
  time_slot : String
  treatments : List (String × ℚ)
deriving DecidableEq

/-- `Appointment.__init__` strips the patient name and phone
(src/Dental_Clinic.py:177). -/
def mkAppointment (name phone date time_slot : String) (ts : List (String × ℚ)) : Appt :=
  ⟨pyStrip name, pyStrip phone, date, time_slot, ts⟩

/-- `Appointment.is_upcoming` (src/Dental_Clinic.py:197): parse the stored
date and compare with today; a date that fails to parse counts as not
upcoming (the `except ValueError` branch). -/
def Appt.is_upcoming (today : ℕ) (a : Appt) : Bool :=
  match parseDate a.date with
  | some d => decide (today ≤ encodeDate d)
  | none => false

/-- The sort key of `refresh_appointments_list`
(src/Dental_Clinic.py:832): the parsed date.  It is only consulted on
appointments that passed `is_upcoming`, whose dates all parse. -/
def sortKey (a : Appt) : ℕ :=
  ((parseDate a.date).map encodeDate).getD 0

/-- Comparison by appointment date, the order used by the upcoming view. -/
def apptLE (a b : Appt) : Prop :=
  sortKey a ≤ sortKey b

instance apptLE.decidableRel : DecidableRel apptLE :=
  fun a b => Nat.decLe _ _

instance apptLE.isTotal : IsTotal Appt apptLE :=
  ⟨fun a b => Nat.le_total _ _⟩

instance apptLE.isTrans : IsTrans Appt apptLE :=
  ⟨fun _ _ _ hab hbc => Nat.le_trans hab hbc⟩

/-- `refresh_appointments_list` (src/Dental_Clinic.py:829): filter the
stored collection to upcoming appointments (a fresh list, so the stored
order is untouched) and sort the copy by date.  Python's `list.sort` is
stable; `List.insertionSort` inserts each element after the block of
equal-key elements already placed, which realises the same stable order
(proved in `filter_key_insertionSort`). -/
def listUpcoming (today : ℕ) (appts : List Appt) : List Appt :=
  List.insertionSort apptLE (appts.filter (Appt.is_upcoming today))

theorem filter_key_orderedInsert (k : ℕ) (a : Appt) (l : List Appt) :
    (List.orderedInsert apptLE a l).filter (fun b => sortKey b == k) =
      if sortKey a = k then a :: l.filter (fun b => sortKey b == k)
      else l.filter (fun b => sortKey b == k) := by
  induction l with
  | nil =>
    by_cases hak : sortKey a = k
    · rw [if_pos hak]
      simp [List.orderedInsert, List.filter_cons, hak]
    · rw [if_neg hak]
      simp [List.orderedInsert, List.filter_cons, hak]
  | cons h t ih =>
    simp only [List.orderedInsert]
    by_cases hr : apptLE a h
    · rw [if_pos hr]
      by_cases hak : sortKey a = k
      · rw [if_pos hak]
        simp [List.filter_cons, hak]
      · rw [if_neg hak]
        simp [List.filter_cons, hak]
    · rw [if_neg hr]
      have hlt : sortKey h < sortKey a := by
        unfold apptLE at hr
        omega
      by_cases hak : sortKey a = k
      · rw [if_pos hak]
        have hhk : sortKey h ≠ k := by omega
        simp only [List.filter_cons]
        rw [show (sortKey h == k) = false by simp [hhk]]
        simp only [Bool.false_eq_true, if_false]
        rw [ih, if_pos hak]
      · rw [if_neg hak]
        simp only [List.filter_cons]
        rw [ih, if_neg hak]

theorem filter_key_insertionSort (k : ℕ) (l : List Appt) :
    (List.insertionSort apptLE l).filter (fun b => sortKey b == k) =
      l.filter (fun b => sortKey b == k) := by
  induction l with
  | nil => rfl
  | cons h t ih =>
    show (List.orderedInsert apptLE h (List.insertionSort apptLE t)).filter _ = _
    rw [filter_key_orderedInsert]
    by_cases hk : sortKey h = k
    · rw [if_pos hk, ih, List.filter_cons, show (sortKey h == k) = true by simp [hk]]
      simp
    · rw [if_neg hk, ih, List.filter_cons, show (sortKey h == k) = false by simp [hk]]
      simp

/-- Claim C5: the upcoming view contains exactly the stored appointments
whose date is on or after today (`is_upcoming`), sorted ascending by date,
and appointments with equal dates keep their stored relative order (the
per-date-key filtrations of the view and of the stored order coincide).
The view is built from a fresh filtered copy (`[appt for appt in
self.appointments if appt.is_upcoming()]`), so producing it never reorders
the stored collection. -/
theorem list_upcoming_spec (today : ℕ) (appts : List Appt) :
    List.Perm (listUpcoming today appts) (appts.filter (Appt.is_upcoming today)) ∧
      List.Sorted apptLE (listUpcoming today appts) ∧
      ∀ k, (listUpcoming today appts).filter (fun b => sortKey b == k) =
        (appts.filter (Appt.is_upcoming today)).filter (fun b => sortKey b == k) :=
  ⟨List.perm_insertionSort apptLE _,
   List.sorted_insertionSort apptLE _,
   fun k => filter_key_insertionSort k _⟩

/-- `book_appointment` (src/Dental_Clinic.py:777) as a pure transition on
the appointment collection: the second component reports the validation
error, `none` meaning success; file persistence (`save_appointments`) is the
collection itself. -/
def bookRun (today : ℕ) (appts : List Appt)
    (rawName rawPhone rawDate rawTime : String) (sels : List (String × ℚ)) :
    List Appt × Option String :=
  let name := pyStrip rawName
  let phone := pyStrip rawPhone
  let date := pyStrip rawDate
  let time := pyStrip rawTime
  if name = "" ∨ phone = "" ∨ date = "" ∨ time = "" then
    (appts, some "Please fill all fields.")
  else
    match parseDate date with
    | none => (appts, some "Invalid date format. Use YYYY-MM-DD (e.g., 2024-10-15).")
    | some d =>
      if encodeDate d < today then (appts, some "Date must be today or in the future.")
      else
        match parseTime time with
        | none => (appts, some "Invalid time format. Use HH:MM (e.g., 14:30).")
        | some _ =>
          if sels = [] then (appts, some "Please select at least one treatment.")
          else (appts ++ [mkAppointment name phone date time sels], none)

/-- Claim C6: with all fields present, a valid HH:MM time and at least one
treatment, booking an appointment dated strictly before today fails with a
validation error and leaves the collection unchanged, while booking one
dated today or later succeeds, appends the appointment, and the appointment
appears in the upcoming view. -/
theorem book_rejects_past_accepts_upcoming (today : ℕ) (appts : List Appt)
    (rawName rawPhone rawDate rawTime : String) (sels : List (String × ℚ))
    (d : ℕ × ℕ × ℕ) (tm : ℕ × ℕ)
    (hn : pyStrip rawName ≠ "") (hp : pyStrip rawPhone ≠ "")
    (hd : parseDate (pyStrip rawDate) = some d)
    (ht : parseTime (pyStrip rawTime) = some tm)
    (hs : sels ≠ []) :
    (encodeDate d < today →
      bookRun today appts rawName rawPhone rawDate rawTime sels =
        (appts, some "Date must be today or in the future.")) ∧
    (today ≤ encodeDate d →
      bookRun today appts rawName rawPhone rawDate rawTime sels =
        (appts ++ [mkAppointment (pyStrip rawName) (pyStrip rawPhone)
          (pyStrip rawDate) (pyStrip rawTime) sels], none) ∧
      mkAppointment (pyStrip rawName) (pyStrip rawPhone)
          (pyStrip rawDate) (pyStrip rawTime) sels ∈
        listUpcoming today (appts ++ [mkAppointment (pyStrip rawName) (pyStrip rawPhone)
          (pyStrip rawDate) (pyStrip rawTime) sels])) := by
  have hdate_ne : pyStrip rawDate ≠ "" := by
    intro hempty
    rw [hempty] at hd
    exact Option.noConfusion hd
  have htime_ne : pyStrip rawTime ≠ "" := by
    intro hempty
    rw [hempty] at ht
    exact Option.noConfusion ht
  unfold bookRun
  dsimp only
  rw [if_neg (by
    push_neg
    exact ⟨hn, hp, hdate_ne, htime_ne⟩)]
  rw [hd]
  dsimp only
  constructor
  · intro hlt
    rw [if_pos hlt]
  · intro hge
    rw [if_neg (not_lt.mpr hge), ht]
    dsimp only
    rw [if_neg hs]
    refine ⟨rfl, ?_⟩
    have hup : Appt.is_upcoming today
        (mkAppointment (pyStrip rawName) (pyStrip rawPhone)
          (pyStrip rawDate) (pyStrip rawTime) sels) = true := by
      unfold Appt.is_upcoming mkAppointment
      dsimp only
      rw [hd]
      simpa using hge
    have hmem : mkAppointment (pyStrip rawName) (pyStrip rawPhone)
        (pyStrip rawDate) (pyStrip rawTime) sels ∈
        (appts ++ [mkAppointment (pyStrip rawName) (pyStrip rawPhone)
          (pyStrip rawDate) (pyStrip rawTime) sels]).filter (Appt.is_upcoming today) :=
      List.mem_filter.mpr ⟨List.mem_append_right _ (List.mem_singleton_self _), hup⟩
    exact (List.perm_insertionSort apptLE _).symm.subset hmem

theorem book_rejects_past_accepts_upcoming_witness :
    bookRun 20261012 [] "John" "123" "2026-10-12" "14:30" [("Cleaning", (7000 : ℚ))] =
        ([] ++ [mkAppointment (pyStrip "John") (pyStrip "123")
          (pyStrip "2026-10-12") (pyStrip "14:30") [("Cleaning", (7000 : ℚ))]], none) ∧
      mkAppointment (pyStrip "John") (pyStrip "123")
          (pyStrip "2026-10-12") (pyStrip "14:30") [("Cleaning", (7000 : ℚ))] ∈
        listUpcoming 20261012 ([] ++ [mkAppointment (pyStrip "John") (pyStrip "123")
          (pyStrip "2026-10-12") (pyStrip "14:30") [("Cleaning", (7000 : ℚ))]]) :=
  (book_rejects_past_accepts_upcoming 20261012 [] "John" "123" "2026-10-12" "14:30"
      [("Cleaning", (7000 : ℚ))] (2026, 10, 12) (14, 30)
      (by decide) (by decide) (by decide) (by decide) (by decide)).2 (by decide)

/-- The JSON value tree written by `json.dump` and read back by `json.load`
(src/Dental_Clinic.py:209,220); the textual encode/decode pair of the
standard library is faithful on this tree and is modelled as the
identity. -/
inductive Jsonv where
  | str (s : String) : Jsonv
  | num (q : ℚ) : Jsonv
  | arr (l : List Jsonv) : Jsonv
  | obj (l : List (String × Jsonv)) : Jsonv

/-- Python dict lookup `data[k]` on a literal-object field list. -/
def jGet (fields : List (String × Jsonv)) (k : String) : Option Jsonv :=
  (fields.find? (fun f => f.1 == k)).map (fun f => f.2)

/-- `Appointment.to_dict` (src/Dental_Clinic.py:183): each treatment tuple
becomes a two-element array; `float(cost)` is the identity on the exact
rational model. -/
def toDict (a : Appt) : Jsonv :=
  .obj [("patient_name", .str a.patient_name),
        ("phone", .str a.phone),
        ("date", .str a.date),
        ("time_slot", .str a.time_slot),
        ("treatments", .arr (a.treatments.map (fun t => .arr [.str t.1, .num t.2])))]

/-- Decode one treatment entry, as the `for name, cost in data['treatments']`
destructuring of `Appointment.from_dict` (src/Dental_Clinic.py:194). -/
def decodeTreat : Jsonv → Option (String × ℚ)
  | .arr [.str n, .num c] => some (n, c)
  | _ => none

/-- The treatments list comprehension of `from_dict`. -/
def decodeTreats : List Jsonv → Option (List (String × ℚ))
  | [] => some []
  | j :: rest =>
    match decodeTreat j, decodeTreats rest with
    | some t, some ts => some (t :: ts)
    | _, _ => none

/-- `Appointment.from_dict` (src/Dental_Clinic.py:192): field lookups
followed by the `Appointment` constructor (which strips name and phone);
a shape that `json.load` cannot have produced from `to_dict` output, or
that makes the destructuring raise, is `none`. -/
def fromDict (j : Jsonv) : Option Appt :=
  match j with
  | .obj fields =>
    match jGet fields "patient_name", jGet fields "phone", jGet fields "date",
        jGet fields "time_slot", jGet fields "treatments" with
    | some (.str n), some (.str p), some (.str da), some (.str t), some (.arr ts) =>
      match decodeTreats ts with
      | some sels => some (mkAppointment n p da t sels)
      | none => none
    | _, _, _, _, _ => none
  | _ => none

/-- `save_appointments` (src/Dental_Clinic.py:220): dump the list of
`to_dict` images. -/
def saveAppointments (appts : List Appt) : Jsonv :=
  .arr (appts.map toDict)

/-- The list comprehension of `load_appointments`. -/
def loadList : List Jsonv → Option (List Appt)
  | [] => some []
  | j :: rest =>
    match fromDict j, loadList rest with
    | some a, some l => some (a :: l)
    | _, _ => none

/-- `load_appointments` (src/Dental_Clinic.py:209): read the array back and
rebuild each appointment with `from_dict`. -/
def loadAppointments (j : Jsonv) : Option (List Appt) :=
  match j with
  | .arr l => loadList l
  | _ => none

theorem decode_encode_treats (l : List (String × ℚ)) :
    decodeTreats (l.map (fun t => Jsonv.arr [Jsonv.str t.1, Jsonv.num t.2])) = some l := by
  induction l with
  | nil => rfl
  | cons h t ih =>
    obtain ⟨n, c⟩ := h
    show (match decodeTreat (Jsonv.arr [Jsonv.str n, Jsonv.num c]),
        decodeTreats (t.map (fun t => Jsonv.arr [Jsonv.str t.1, Jsonv.num t.2])) with
      | some t, some ts => some (t :: ts)
      | _, _ => none) = _
    rw [ih]
    rfl

theorem fromDict_toDict (a : Appt) :
    fromDict (toDict a) =
      some (mkAppointment a.patient_name a.phone a.date a.time_slot a.treatments) := by
  have hstep : fromDict (toDict a) =
      (match decodeTreats (a.treatments.map (fun t => Jsonv.arr [Jsonv.str t.1, Jsonv.num t.2])) with
        | some sels => some (mkAppointment a.patient_name a.phone a.date a.time_slot sels)
        | none => none) := rfl
  rw [hstep, decode_encode_treats]

/-- Claim C7: appointments whose name and phone carry no surrounding
whitespace (which every appointment written by book/edit does, since the
`Appointment` constructor strips both and the edit handler strips its
inputs) survive the `to_dict`/JSON/`from_dict` round trip of the store
exactly: serialising the collection and reloading it yields the identical
list, so patient_name, phone, date, time_slot and the treatment
(name, price) list are all reproduced. -/
theorem appointments_roundtrip (appts : List Appt)
    (h : ∀ a ∈ appts, pyStrip a.patient_name = a.patient_name ∧ pyStrip a.phone = a.phone) :
    loadAppointments (saveAppointments appts) = some appts := by
  unfold loadAppointments saveAppointments
  induction appts with
  | nil => rfl
  | cons a rest ih =>
    have ha := h a (List.mem_cons_self a rest)
    have hrest := ih (fun x hx => h x (List.mem_cons_of_mem a hx))
    show (match fromDict (toDict a), loadList (rest.map toDict) with
      | some x, some l => some (x :: l)
      | _, _ => none) = _
    rw [fromDict_toDict]
    rw [show loadList (rest.map toDict) = some rest from hrest]
    unfold mkAppointment
    rw [ha.1, ha.2]

theorem appointments_roundtrip_witness :
    loadAppointments (saveAppointments
        [⟨"John", "123", "2026-10-12", "14:30", [("Cleaning", (7000 : ℚ))]⟩]) =
      some [⟨"John", "123", "2026-10-12", "14:30", [("Cleaning", (7000 : ℚ))]⟩] :=
  appointments_roundtrip _ (by
    intro a ha
    rcases List.mem_singleton.mp ha with rfl
    exact ⟨by decide, by decide⟩)

/-- Python `str(x)` for the integer-typed money amounts the program stores
(catalog prices are integer literals, and sums of integers stay integers);
a non-unit denominator never reaches rendering in any theorem below, so its
branch only keeps the function total. -/
def pyStr (q : ℚ) : String :=
  if q.den = 1 then toString q.num else toString q.num ++ "/" ++ toString q.den

/-- Python `str(x)` for the float-typed amounts (`float(...)` discounts and
`round(...)` totals): a whole value prints with a trailing `.0`.  Fractional
float printing never reaches rendering in any theorem below. -/
def pyStrFloat (q : ℚ) : String :=
  if q.den = 1 then toString q.num ++ ".0" else toString q.num ++ "/" ++ toString q.den

/-- `Patient._build_bill_text` (src/Dental_Clinic.py:65) with the
`BILL RECEIPT` title passed by `generate_bill`. -/
def Patient.buildBillText (clinicName name phone : String) (ts : List (String × ℚ)) : String :=
  String.intercalate "\n"
    (["\n===== BILL RECEIPT =====",
      "Clinic: " ++ clinicName,
      "Patient Name: " ++ name,
      "Phone: " ++ phone,
      "---------------------------",
      "Treatments:"] ++
     (if ts = [] then ["- (No treatments selected)"]
      else ts.map (fun t => "- " ++ t.1 ++ ": Rs. " ++ pyStr t.2)) ++
     ["---------------------------",
      "Total Amount: Rs. " ++ pyStr (Patient.calculate_total ts),
      "==========================="])

/-- `VIPPatient._build_bill_text` (src/Dental_Clinic.py:154) with the
`VIP BILL RECEIPT` title passed by `generate_bill`. -/
def VIPPatient.buildBillText (clinicName name phone : String) (discount : ℚ)
    (ts : List (String × ℚ)) : String :=
  String.intercalate "\n"
    (["\n===== VIP BILL RECEIPT =====",
      "Clinic: " ++ clinicName,
      "VIP Patient Name: " ++ name,
      "Phone: " ++ phone,
      "---------------------------",
      "Treatments:"] ++
     (if ts = [] then ["- (No treatments selected)"]
      else ts.map (fun t => "- " ++ t.1 ++ ": Rs. " ++ pyStr t.2)) ++
     ["---------------------------",
      "Original Total: Rs. " ++ pyStr (Patient.calculate_total ts),
      "Discount: " ++ pyStrFloat discount ++ "%",
      "Total Amount after Discount: Rs. " ++ pyStrFloat (VIPPatient.calculate_total discount ts),
      "==========================="])

/-- The VIP party record. -/
structure VIPPatientRec where
  name : String
  phone : String
  discount : ℚ
deriving DecidableEq

/-- `VIPPatient.__init__` (src/Dental_Clinic.py:144 and
src/dental_billing.py:127): strip name and phone (via the `Patient`
initialiser) and store the discount.  No range check of any kind is
performed here. -/
def VIPPatient.init (name phone : String) (discount : ℚ) : VIPPatientRec :=
  ⟨pyStrip name, pyStrip phone, discount⟩

/-- The validation-and-render chain of `generate_bill`
(src/Dental_Clinic.py:418): name, phone, discount (VIP only, parsed with
`float` and range-checked), selection non-emptiness; on success the dated
bill text. -/
def generateBill (nowStr clinicName : String) (isVip : Bool)
    (rawName rawPhone discountStr : String) (sels : List (String × ℚ)) :
    Except String String :=
  let name := pyStrip rawName
  let phone := pyStrip rawPhone
  if name = "" then .error "Please enter patient name."
  else if phone = "" then .error "Please enter phone number."
  else if isVip then
    match parseFloat discountStr with
    | none => .error "Invalid discount value."
    | some d =>
      if d < 0 ∨ 100 < d then .error "Discount must be between 0 and 100."
      else if sels = [] then .error "Please select at least one treatment."
      else .ok ("Date & Time: " ++ nowStr ++ "\n" ++
        VIPPatient.buildBillText clinicName name phone d sels)
  else
    if sels = [] then .error "Please select at least one treatment."
    else .ok ("Date & Time: " ++ nowStr ++ "\n" ++
      Patient.buildBillText clinicName name phone sels)

theorem halfEven_intCast (n : ℤ) : halfEven ((n : ℚ)) = n := by
  unfold halfEven
  rw [Int.floor_intCast]
  rw [if_pos (by norm_num)]

/-- Claim C9 counterexample: `VIPPatient.__init__` performs no discount
validation.  Constructing a VIP party with discount 150 succeeds, and the
party is fully usable: its `calculate_total` on a single 100-rupee
treatment yields -50 with no error anywhere. -/
theorem vip_init_accepts_out_of_range_discount :
    VIPPatient.init "A" "1" 150 = ⟨"A", "1", 150⟩ ∧
      VIPPatient.calculate_total 150 [("x", (100 : ℚ))] = -50 := by
  constructor
  · decide
  · unfold VIPPatient.calculate_total
    have h1 : Patient.calculate_total [("x", (100 : ℚ))] = 100 := by
      simp [Patient.calculate_total]
    rw [h1]
    have h2 : (100 : ℚ) * (1 - 150 / 100) = ((-50 : ℤ) : ℚ) := by norm_num
    rw [h2]
    unfold pyRound2
    have h3 : ((-50 : ℤ) : ℚ) * 100 = ((-5000 : ℤ) : ℚ) := by norm_num
    rw [h3, halfEven_intCast]
    norm_num

/-- Claim C9 (amended): the discount range check lives in the
`generate_bill` flow, not in the party constructor: within that flow a VIP
discount parsing to a value outside [0,100] fails with the validation error
`Discount must be between 0 and 100.` before any party or bill is produced,
while directly constructed `VIPPatient` objects accept any discount (see
the counterexample). -/
theorem generate_bill_rejects_out_of_range_discount
    (nowStr clinicName rawName rawPhone discountStr : String)
    (sels : List (String × ℚ)) (d : ℚ)
    (hn : pyStrip rawName ≠ "") (hp : pyStrip rawPhone ≠ "")
    (hd : parseFloat discountStr = some d) (hrange : d < 0 ∨ 100 < d) :
    generateBill nowStr clinicName true rawName rawPhone discountStr sels =
      .error "Discount must be between 0 and 100." := by
  unfold generateBill
  dsimp only
  rw [if_neg hn, if_neg hp, if_pos rfl, hd]
  dsimp only
  rw [if_pos hrange]

theorem generate_bill_rejects_out_of_range_discount_witness :
    generateBill "2026-10-12 09:00:00" "Bright Smile Dental Clinic" true "A" "1" "150" [] =
      .error "Discount must be between 0 and 100." :=
  generate_bill_rejects_out_of_range_discount _ _ _ _ _ _ ((1 : ℚ) * ((150 : ℕ) : ℚ))
    (by decide) (by decide) rfl (Or.inr (by norm_num))

/-- A position where `re.split(r'(?=={5,}|\n{3,})', content)` places a
record boundary (src/Dental_Clinic.py:666): five or more equals signs, or
three or more newlines, start here. -/
def boundary (cs : List Char) : Bool :=
  match cs with
  | '=' :: '=' :: '=' :: '=' :: '=' :: _ => true
  | '\n' :: '\n' :: '\n' :: _ => true
  | _ => false

/-- Walk the log, closing the current piece at every boundary position
(the zero-width lookahead keeps the boundary characters in the next
piece, and consecutive boundary positions produce one-character
pieces, exactly as `re.split` does on zero-width matches). -/
def splitRecsAux (acc : List Char) : List Char → List (List Char)
  | [] => [acc.reverse]
  | c :: rest =>
    if boundary (c :: rest) then acc.reverse :: splitRecsAux [c] rest
    else splitRecsAux (c :: acc) rest

/-- `bills = re.split(r'(?=={5,}|\n{3,})', content)`. -/
def splitRecords (s : String) : List String :=
  (splitRecsAux [] s.data).map String.mk

/-- Substring test on character lists, as `re.search(re.escape(q), text)`:
the escaped query matches iff it occurs literally. -/
def containsSub (hay needle : List Char) : Bool :=
  match hay with
  | [] => needle.isEmpty
  | _ :: t => needle.isPrefixOf hay || containsSub t needle

/-- The three outcomes of `search_bills` (src/Dental_Clinic.py:648): a
rejected query, the explicit no-log state, or the matching records. -/
inductive SearchResult where
  | invalidQuery : SearchResult
  | noRecords : SearchResult
  | results (found : List String) : SearchResult
deriving DecidableEq

/-- `search_bills` (src/Dental_Clinic.py:648): lower-case and strip the
query, reject the empty query and the literal placeholder text, report the
missing combined log as its own state, otherwise return the stripped
record segments whose lowered text contains the query (the UI then shows
the first 10 of this list plus a remainder count). -/
def searchBills (fileExists : Bool) (content : String) (rawQuery : String) : SearchResult :=
  let query := pyLower (pyStrip rawQuery)
  if query = "" ∨ query = "enter name or phone (partial match)..." then .invalidQuery
  else if fileExists = false then .noRecords
  else
    .results (((splitRecords content).filter
      (fun b => (pyStrip b != "") && containsSub (pyLower b).data query.data)).map pyStrip)

/-- The selection used by the demonstration bill. -/
def demoSel : List (String × ℚ) := [("Cleaning", 7000)]

/-- A combined log holding exactly one appended bill, produced the way
`generate_bill` + `save_bill_to_files` produce it: the dated bill text
followed by the blank-line separator. -/
def demoLog : String :=
  "Date & Time: 2026-10-12 09:00:00\n" ++
    Patient.buildBillText "Bright Smile Dental Clinic" "John" "123" demoSel ++ "\n\n"

/-- Claim C8 counterexample: the query `RECEIPT =====` is a substring (in
any letter case) of the one bill previously appended to `demoLog`, yet
`search_bills` returns zero matches: the record-boundary heuristic splits
the bill at every run of five equals signs, so the bill's own title line is
fragmented and no derived record contains the query. -/
theorem search_misses_query_spanning_fragments :
    containsSub (pyLower demoLog).data (pyLower "RECEIPT =====").data = true ∧
      searchBills true demoLog "RECEIPT =====" = SearchResult.results [] := by
  have h : Patient.calculate_total demoSel = 7000 := by
    simp [Patient.calculate_total, demoSel]
  constructor
  · unfold demoLog Patient.buildBillText
    rw [h]
    decide
  · unfold searchBills demoLog Patient.buildBillText
    rw [h]
    decide

/-- Claim C8 (amended): an empty or whitespace-only query is a validation
error; a missing combined log is the explicit no-records state, distinct
from a zero-match result; and the substring guarantee holds at the level of
the derived record segments rather than whole appended bills: any query
that occurs (case-insensitively) inside a derived record segment with
non-blank content is returned with that segment, but a query spanning a
record boundary created by the splitting heuristic can miss every segment
even though it occurs in the appended bill (see the counterexample). -/
theorem search_error_states_and_segment_matches :
    (∀ (f : Bool) (content rawQuery : String), pyStrip rawQuery = "" →
      searchBills f content rawQuery = SearchResult.invalidQuery) ∧
    (∀ (content rawQuery s : String),
      s ∈ splitRecords content →
      pyLower (pyStrip rawQuery) ≠ "" →
      pyLower (pyStrip rawQuery) ≠ "enter name or phone (partial match)..." →
      pyStrip s ≠ "" →
      containsSub (pyLower s).data (pyLower (pyStrip rawQuery)).data = true →
      ∃ m, searchBills true content rawQuery = SearchResult.results m ∧ pyStrip s ∈ m) ∧
    (∀ (content rawQuery : String),
      pyLower (pyStrip rawQuery) ≠ "" →
      pyLower (pyStrip rawQuery) ≠ "enter name or phone (partial match)..." →
      searchBills false content rawQuery = SearchResult.noRecords ∧
        SearchResult.noRecords ≠ SearchResult.results []) := by
  refine ⟨?_, ?_, ?_⟩
  · intro f content rawQuery hq
    unfold searchBills
    rw [if_pos (Or.inl (by rw [hq]; rfl))]
  · intro content rawQuery s hmem h1 h2 h3 h4
    unfold searchBills
    rw [if_neg (by push_neg; exact ⟨h1, h2⟩)]
    rw [if_neg (by simp)]
    refine ⟨_, rfl, ?_⟩
    refine List.mem_map.mpr ⟨s, List.mem_filter.mpr ⟨hmem, ?_⟩, rfl⟩
    rw [Bool.and_eq_true]
    exact ⟨bne_iff_ne.mpr h3, h4⟩
  · intro content rawQuery h1 h2
    constructor
    · unfold searchBills
      rw [if_neg (by push_neg; exact ⟨h1, h2⟩)]
      rw [if_pos rfl]
    · intro hcon
      exact SearchResult.noConfusion hcon

theorem search_error_states_and_segment_matches_witness :
    searchBills true "hello John" "   " = SearchResult.invalidQuery ∧
      (∃ m, searchBills true "hello John" "John" = SearchResult.results m ∧
        pyStrip "hello John" ∈ m) ∧
      searchBills false "hello John" "John" = SearchResult.noRecords ∧
        SearchResult.noRecords ≠ SearchResult.results [] :=
  ⟨search_error_states_and_segment_matches.1 true "hello John" "   " (by decide),
   search_error_states_and_segment_matches.2.1 "hello John" "John" "hello John"
     (by decide) (by decide) (by decide) (by decide) (by decide),
   search_error_states_and_segment_matches.2.2 "hello John" "John"
     (by decide) (by decide)⟩

/-- Claim C10: `search_bills` compares the stripped, lowered query against
the literal placeholder text `Enter name or phone (partial match)...` and
rejects it exactly as it rejects the empty query, so a user genuinely
searching for that text receives a validation error rather than a search
result. -/
theorem search_rejects_placeholder_text (f : Bool) (content rawQuery : String)
    (h : pyLower (pyStrip rawQuery) = "enter name or phone (partial match)...") :
    searchBills f content rawQuery = SearchResult.invalidQuery := by
  unfold searchBills
  rw [if_pos (Or.inr h)]

theorem search_rejects_placeholder_text_witness :
    searchBills true "log" "Enter name or phone (partial match)..." =
      SearchResult.invalidQuery :=
  search_rejects_placeholder_text true "log" "Enter name or phone (partial match)..."
    (by decide)
